import Mathlib

/-!
Shallow embedding of `src/main.rs` (cube-tuimer), a terminal timer for
speed-cube practice.  Machine integers (`u8`, `usize`) are modelled as `Nat`
with explicit bit masking where the source masks; `Instant` and `Duration`
are modelled as nanosecond counts (`Nat`); the `rand::Rng` source is modelled
as a stream `g : Nat → Nat` of raw draws, where `rng.gen_range(0..n)` with
`0 < n` consumes one draw `v` and yields `v % n` (any value `< n` is
reachable, matching a uniform source).
-/

namespace CubeTuimer

/-- `const INSPECT_DURATION: Duration = Duration::from_secs(15)`, in ns. -/
def INSPECT_DURATION : Nat := 15000000000

/-- `const SCRAMBLE_MOVES: usize = 30`. -/
def SCRAMBLE_MOVES : Nat := 30

/-- `enum Dir` with `repr(u8)` discriminants `1 << 0` .. `1 << 5`. -/
inductive Dir where
  | Front
  | Back
  | Left
  | Right
  | Up
  | Down
deriving DecidableEq

/-- The `repr(u8)` value of a `Dir` (`Dir::Front as u8`, etc.). -/
def Dir.toBits : Dir → Nat
  | .Front => 1
  | .Back => 2
  | .Left => 4
  | .Right => 8
  | .Up => 16
  | .Down => 32

/-- The axis-pair mask used by `PrevDirs::update`:
`Dir::Front as u8 | Dir::Back as u8`, etc. -/
def Dir.axisMask : Dir → Nat
  | .Front | .Back => 1 ||| 2
  | .Left | .Right => 4 ||| 8
  | .Up | .Down => 16 ||| 32

/-- `enum Mod { Forward, Reverse, Double }`. -/
inductive Mod where
  | Forward
  | Reverse
  | Double
deriving DecidableEq

/-- `struct Move(u8)`: bit 7 = DOUBLE, bit 6 = REVERSE, low 6 bits = dir. -/
structure Move where
  val : Nat
deriving DecidableEq

/-- `struct PrevDirs(u8)`. -/
structure PrevDirs where
  val : Nat
deriving DecidableEq

/-- `u8::count_ones`, counting the low 8 bits (a `u8` value). -/
def countOnesAux : Nat → Nat → Nat
  | 0, _ => 0
  | fuel + 1, n => n % 2 + countOnesAux fuel (n / 2)

/-- `prev_dirs.0.count_ones()` for the `u8` field. -/
def countOnes (n : Nat) : Nat := countOnesAux 8 n

/-- The direction-selection loop of `Move::random`:
`for i in 0..6 { let bit = 1 << i; if !prev_dirs.get(bit) { if dir == 0 { mov |= bit; break } dir -= 1 } }`.
Returns the single chosen bit, or `0` if the loop ends without a break. -/
def selectDir (prev : Nat) : Nat → Nat → Nat → Nat
  | 0, _, _ => 0
  | fuel + 1, i, dir =>
    let bit := 2 ^ i
    if prev &&& bit = 0 then
      if dir = 0 then bit
      else selectDir prev fuel (i + 1) (dir - 1)
    else selectDir prev fuel (i + 1) dir

/-- `Move::random(rng, prev_dirs)`: `r1` is the raw draw for
`rng.gen_range(0..num_dirs)`, `r2` the raw draw for `rng.gen_range(0..3)`. -/
def Move.random (r1 r2 : Nat) (prev : PrevDirs) : Move :=
  let numDirs := 6 - countOnes prev.val
  let dir := r1 % numDirs
  let mov := selectDir prev.val 6 0 dir
  let modifier := r2 % 3
  let mov :=
    match modifier with
    | 0 => mov
    | 1 => mov ||| 64
    | _ => mov ||| 128
  ⟨mov⟩

/-- The low 6 bits of a move: `self.0 & Move::DIR_MASK`. -/
def Move.dirBits (m : Move) : Nat := m.val &&& 63

/-- `Move::dir`: the source does an unchecked `transmute` of the masked byte
to `Dir`; here the decode is `none` exactly on the codes for which the
transmute would be undefined behavior. -/
def Move.dir? (m : Move) : Option Dir :=
  match m.val &&& 63 with
  | 1 => some .Front
  | 2 => some .Back
  | 4 => some .Left
  | 8 => some .Right
  | 16 => some .Up
  | 32 => some .Down
  | _ => none

/-- `Move::modifier`. -/
def Move.modifier (m : Move) : Mod :=
  if m.val &&& 128 ≠ 0 then .Double
  else if m.val &&& 64 ≠ 0 then .Reverse
  else .Forward

/-- `PrevDirs::update`: keep only the bits of the new dir's axis pair, then
set the new dir's bit. -/
def PrevDirs.update (p : PrevDirs) (d : Dir) : PrevDirs :=
  ⟨(p.val &&& d.axisMask) ||| d.toBits⟩

/-- The single letter written for each `Dir` by `Display for Move`. -/
def Dir.char : Dir → Char
  | .Front => 'F'
  | .Back => 'B'
  | .Left => 'L'
  | .Right => 'R'
  | .Up => 'U'
  | .Down => 'D'

/-- The modifier suffix written by `Display for Move`: a space for `Forward`,
an apostrophe (code point 39) for `Reverse`, the digit 2 for `Double`. -/
def Mod.char : Mod → Char
  | .Forward => Char.ofNat 32
  | .Reverse => Char.ofNat 39
  | .Double => '2'

/-- `Display for Move`: dir letter then modifier suffix.  `none` when the
dir decode would be undefined behavior (never for generated moves). -/
def Move.fmt (m : Move) : Option String :=
  m.dir?.map fun d => String.mk [d.char, m.modifier.char]

/-- The loop body of `Scramble::random`: generate `n` moves starting at
stream position `k` with the given `prev_dirs` state.  Each iteration runs
`Move::random` (two raw draws) and then `prev_dirs.update(mov.dir())`; the
`getD` default models the unreachable invalid-decode case of the unchecked
transmute. -/
def genMoves (g : Nat → Nat) : Nat → Nat → PrevDirs → List Move
  | 0, _, _ => []
  | n + 1, k, prev =>
    let mov := Move.random (g k) (g (k + 1)) prev
    mov :: genMoves g n (k + 2) (prev.update ((mov.dir?).getD .Front))

/-- The successive `prev_dirs` values seen by the `n` calls to
`Move::random` inside `Scramble::random`'s loop. -/
def prevTrace (g : Nat → Nat) : Nat → Nat → PrevDirs → List Nat
  | 0, _, _ => []
  | n + 1, k, prev =>
    let mov := Move.random (g k) (g (k + 1)) prev
    prev.val :: prevTrace g n (k + 2) (prev.update ((mov.dir?).getD .Front))

/-- `struct Scramble { moves: [Move; SCRAMBLE_MOVES] }` (array as list; its
length is proved below). -/
structure Scramble where
  moves : List Move
deriving DecidableEq

/-- `Scramble::random`: 30 moves starting from `PrevDirs(0)`. -/
def Scramble.random (g : Nat → Nat) : Scramble :=
  ⟨genMoves g SCRAMBLE_MOVES 0 ⟨0⟩⟩

/-- `enum State`, with `Instant`/`Duration` as nanosecond counts. -/
inductive State where
  | Idle (scramble : Scramble)
  | Inspecting (start : Nat)
  | Solving (start : Nat)
  | Done (elapsed : Nat)
deriving DecidableEq

/-- `State::is_idle`. -/
def State.is_idle : State → Bool
  | .Idle _ => true
  | _ => false

/-- `State::next`, with `Instant::now()` passed in as `now` and the
randomness stream `g` for the fresh scramble of the `Done → Idle` arm.
`Instant::duration_since` saturates to zero, as does `Nat` subtraction. -/
def State.next (s : State) (now : Nat) (g : Nat → Nat) : State :=
  match s with
  | .Idle _ => .Inspecting now
  | .Inspecting _ => .Solving now
  | .Solving start => .Done (now - start)
  | .Done _ => .Idle (Scramble.random g)

/-- `struct App`. -/
structure App where
  color_bg : Bool
  state : State
deriving DecidableEq

/-- The key presses dispatched by `input` (other keys fall to `_ => ()`). -/
inductive Key where
  | q
  | c
  | r
  | space
  | other
deriving DecidableEq

/-- The key-dispatch of `input` (the pure part: one pressed key applied to
the app).  Returns the new app and `false` exactly on quit.  Note the source
guard `KeyCode::Char('r') if app.state.is_idle()`: when the guard fails the
match falls through to `_ => ()`. -/
def input (app : App) (k : Key) (now : Nat) (g : Nat → Nat) : App × Bool :=
  match k with
  | .q => (app, false)
  | .c => ({ app with color_bg := !app.color_bg }, true)
  | .r =>
    if app.state.is_idle then ({ app with state := .Idle (Scramble.random g) }, true)
    else (app, true)
  | .space => ({ app with state := app.state.next now g }, true)
  | .other => (app, true)

/-- `update(app)`: the periodic check, with `Instant::now()` passed as
`now`.  Only the `Inspecting` arm does anything, and only when the elapsed
duration strictly exceeds `INSPECT_DURATION`. -/
def update (now : Nat) (app : App) : App :=
  match app.state with
  | .Idle _ => app
  | .Inspecting start =>
    let duration := now - start
    if duration > INSPECT_DURATION then { app with state := .Solving now } else app
  | .Solving _ => app
  | .Done _ => app

/-- The valid `prev_dirs` states: all set bits lie inside a single
axis-pair mask. -/
def PrevDirs.wf (p : Nat) : Prop :=
  p &&& 3 = p ∨ p &&& 12 = p ∨ p &&& 48 = p

instance (p : Nat) : Decidable (PrevDirs.wf p) := by
  unfold PrevDirs.wf; infer_instance

/-- The map from the draw `rng.gen_range(0..3)` to the stored modifier. -/
def modOf : Nat → Mod
  | 0 => .Forward
  | 1 => .Reverse
  | _ => .Double

/-! Helper lemmas. -/

theorem wf_lt {p : Nat} (h : PrevDirs.wf p) : p < 64 := by
  have h3 : p &&& 3 ≤ 3 := Nat.and_le_right
  have h12 : p &&& 12 ≤ 12 := Nat.and_le_right
  have h48 : p &&& 48 ≤ 48 := Nat.and_le_right
  rcases h with h | h | h <;> omega

theorem countOnes_wf : ∀ p < 64, PrevDirs.wf p →
    countOnes p ≤ 2 ∧ 4 ≤ 6 - countOnes p ∧
    (6 - countOnes p = 4 ∨ 6 - countOnes p = 5 ∨ 6 - countOnes p = 6) := by decide

theorem selectDir_valid : ∀ p < 64, PrevDirs.wf p → ∀ d < 6 - countOnes p,
    ∃ j, j < 6 ∧ selectDir p 6 0 d = 2 ^ j ∧ p &&& 2 ^ j = 0 := by decide

theorem selectDir_inj : ∀ p < 64, PrevDirs.wf p → ∀ d1 < 6 - countOnes p,
    ∀ d2 < 6 - countOnes p, selectDir p 6 0 d1 = selectDir p 6 0 d2 → d1 = d2 := by
  decide

theorem selectDir_surj : ∀ p < 64, PrevDirs.wf p → ∀ j < 6, p &&& 2 ^ j = 0 →
    ∃ d, d < 6 - countOnes p ∧ selectDir p 6 0 d = 2 ^ j := by decide

theorem or_mask63 : ∀ s < 64,
    (s ||| 64) &&& 63 = s ∧ (s ||| 128) &&& 63 = s ∧ s &&& 63 = s := by decide

theorem or_bit_and_self : ∀ x < 64, ∀ j < 6, (x ||| 2 ^ j) &&& 2 ^ j = 2 ^ j := by
  decide

theorem modifier_bits : ∀ s < 64,
    s &&& 128 = 0 ∧ s &&& 64 = 0 ∧ (s ||| 64) &&& 128 = 0 ∧
    (s ||| 64) &&& 64 ≠ 0 ∧ (s ||| 128) &&& 128 ≠ 0 := by decide

theorem and_twice (a b : Nat) : (a &&& b) &&& b = a &&& b := by
  rw [Nat.and_assoc, Nat.and_self]

theorem update_wf (p : PrevDirs) (d : Dir) : PrevDirs.wf (p.update d).val := by
  cases d
  case Front =>
    have h : p.val &&& 3 ≤ 3 := Nat.and_le_right
    exact (by decide : ∀ x < 4, x &&& 3 = x → PrevDirs.wf (x ||| 1))
      (p.val &&& 3) (by omega) (and_twice p.val 3)
  case Back =>
    have h : p.val &&& 3 ≤ 3 := Nat.and_le_right
    exact (by decide : ∀ x < 4, x &&& 3 = x → PrevDirs.wf (x ||| 2))
      (p.val &&& 3) (by omega) (and_twice p.val 3)
  case Left =>
    have h : p.val &&& 12 ≤ 12 := Nat.and_le_right
    exact (by decide : ∀ x < 13, x &&& 12 = x → PrevDirs.wf (x ||| 4))
      (p.val &&& 12) (by omega) (and_twice p.val 12)
  case Right =>
    have h : p.val &&& 12 ≤ 12 := Nat.and_le_right
    exact (by decide : ∀ x < 13, x &&& 12 = x → PrevDirs.wf (x ||| 8))
      (p.val &&& 12) (by omega) (and_twice p.val 12)
  case Up =>
    have h : p.val &&& 48 ≤ 48 := Nat.and_le_right
    exact (by decide : ∀ x < 49, x &&& 48 = x → PrevDirs.wf (x ||| 16))
      (p.val &&& 48) (by omega) (and_twice p.val 48)
  case Down =>
    have h : p.val &&& 48 ≤ 48 := Nat.and_le_right
    exact (by decide : ∀ x < 49, x &&& 48 = x → PrevDirs.wf (x ||| 32))
      (p.val &&& 48) (by omega) (and_twice p.val 48)

theorem selectDir_pow (p : Nat) : ∀ fuel i d, selectDir p fuel i d = 0 ∨
    ∃ j, i ≤ j ∧ j < i + fuel ∧ selectDir p fuel i d = 2 ^ j := by
  intro fuel
  induction fuel with
  | zero => intro i d; left; rfl
  | succ n ih =>
    intro i d
    simp only [selectDir]
    by_cases h1 : p &&& 2 ^ i = 0
    · rw [if_pos h1]
      by_cases h2 : d = 0
      · rw [if_pos h2]
        right
        exact ⟨i, Nat.le_refl i, by omega, rfl⟩
      · rw [if_neg h2]
        rcases ih (i + 1) (d - 1) with h | ⟨j, hj1, hj2, hj3⟩
        · left; exact h
        · right; exact ⟨j, by omega, by omega, hj3⟩
    · rw [if_neg h1]
      rcases ih (i + 1) d with h | ⟨j, hj1, hj2, hj3⟩
      · left; exact h
      · right; exact ⟨j, by omega, by omega, hj3⟩

theorem selectDir_lt (p d : Nat) : selectDir p 6 0 d < 64 := by
  rcases selectDir_pow p 6 0 d with h | ⟨j, _, hj, h⟩
  · omega
  · rw [h]
    have hj6 : j < 6 := by omega
    interval_cases j <;> decide

theorem move_random_val (r1 r2 : Nat) (p : PrevDirs) :
    (Move.random r1 r2 p).val =
      match r2 % 3 with
      | 0 => selectDir p.val 6 0 (r1 % (6 - countOnes p.val))
      | 1 => selectDir p.val 6 0 (r1 % (6 - countOnes p.val)) ||| 64
      | _ => selectDir p.val 6 0 (r1 % (6 - countOnes p.val)) ||| 128 := rfl

theorem move_random_dirBits (r1 r2 : Nat) (p : PrevDirs) :
    (Move.random r1 r2 p).dirBits = selectDir p.val 6 0 (r1 % (6 - countOnes p.val)) := by
  have hs := selectDir_lt p.val (r1 % (6 - countOnes p.val))
  have hm := or_mask63 _ hs
  unfold Move.dirBits
  rw [move_random_val]
  have h3 : r2 % 3 = 0 ∨ r2 % 3 = 1 ∨ r2 % 3 = 2 := by omega
  rcases h3 with h | h | h <;> rw [h] <;> simp only [hm.1, hm.2.1, hm.2.2]

theorem move_random_dir_valid (r1 r2 : Nat) (p : PrevDirs) (hp : PrevDirs.wf p.val) :
    ∃ j, j < 6 ∧ (Move.random r1 r2 p).dirBits = 2 ^ j ∧ p.val &&& 2 ^ j = 0 := by
  have hlt := wf_lt hp
  have hc := countOnes_wf p.val hlt hp
  have hd : r1 % (6 - countOnes p.val) < 6 - countOnes p.val := Nat.mod_lt r1 (by omega)
  obtain ⟨j, hj, hsel, hfresh⟩ := selectDir_valid p.val hlt hp _ hd
  exact ⟨j, hj, by rw [move_random_dirBits, hsel], hfresh⟩

theorem dir_decode (m : Move) (j : Nat) (hj : j < 6) (h : m.dirBits = 2 ^ j) :
    ∃ d : Dir, m.dir? = some d ∧ d.toBits = 2 ^ j := by
  unfold Move.dirBits at h
  interval_cases j
  · exact ⟨.Front, by simp [Move.dir?, h], rfl⟩
  · exact ⟨.Back, by simp [Move.dir?, h], rfl⟩
  · exact ⟨.Left, by simp [Move.dir?, h], rfl⟩
  · exact ⟨.Right, by simp [Move.dir?, h], rfl⟩
  · exact ⟨.Up, by simp [Move.dir?, h], rfl⟩
  · exact ⟨.Down, by simp [Move.dir?, h], rfl⟩

theorem dir_decode_toBits (m : Move) (d : Dir) (h : m.dir? = some d) :
    m.dirBits = d.toBits := by
  unfold Move.dir? at h
  unfold Move.dirBits
  split at h
  all_goals first
    | (injection h with h; subst h; assumption)
    | exact Option.noConfusion h

theorem update_contains (p : PrevDirs) (d : Dir) (j : Nat) (hj : j < 6)
    (hd : d.toBits = 2 ^ j) : (p.update d).val &&& 2 ^ j = 2 ^ j := by
  have hm : p.val &&& d.axisMask ≤ d.axisMask := Nat.and_le_right
  have hmask : d.axisMask < 64 := by cases d <;> decide
  have := or_bit_and_self (p.val &&& d.axisMask) (by omega) j hj
  unfold PrevDirs.update
  rw [hd]
  exact this

theorem genMoves_length (g : Nat → Nat) :
    ∀ n k p, (genMoves g n k p).length = n := by
  intro n
  induction n with
  | zero => intro k p; rfl
  | succ m ih => intro k p; simp only [genMoves, List.length_cons, ih]

theorem genMoves_inv (g : Nat → Nat) : ∀ n k (p : PrevDirs), PrevDirs.wf p.val →
    (∀ m ∈ genMoves g n k p, ∃ j, j < 6 ∧ m.dirBits = 2 ^ j) ∧
    (∀ m, (genMoves g n k p).head? = some m → p.val &&& m.dirBits = 0) ∧
    List.Chain' (fun a b => Move.dirBits a ≠ Move.dirBits b) (genMoves g n k p) := by
  intro n
  induction n with
  | zero =>
    intro k p _
    refine ⟨?_, ?_, ?_⟩ <;> simp [genMoves]
  | succ m ih =>
    intro k p hp
    obtain ⟨j, hj, hbits, hfresh⟩ := move_random_dir_valid (g k) (g (k + 1)) p hp
    obtain ⟨d0, hdec, htb⟩ := dir_decode _ j hj hbits
    have hunf : genMoves g (m + 1) k p =
        Move.random (g k) (g (k + 1)) p ::
          genMoves g m (k + 2) (p.update ((Move.random (g k) (g (k + 1)) p).dir?.getD .Front)) := by
      simp only [genMoves]
    rw [hunf, hdec]
    simp only [Option.getD_some]
    have hwf' : PrevDirs.wf (p.update d0).val := update_wf p d0
    obtain ⟨ih_all, ih_head, ih_chain⟩ := ih (k + 2) (p.update d0) hwf'
    refine ⟨?_, ?_, ?_⟩
    · intro mv hmv
      rcases List.mem_cons.mp hmv with h | h
      · exact ⟨j, hj, h ▸ hbits⟩
      · exact ih_all mv h
    · intro mv hmv
      simp only [List.head?_cons, Option.some.injEq] at hmv
      subst hmv
      rw [hbits]
      exact hfresh
    · rw [List.chain'_cons']
      refine ⟨?_, ih_chain⟩
      intro y hy
      have hyfresh := ih_head y hy
      intro hEq
      rw [← hEq, hbits] at hyfresh
      have hcont := update_contains p d0 j hj htb
      have hpos : 0 < 2 ^ j := pow_pos (by omega) j
      omega

theorem prevTrace_wf (g : Nat → Nat) : ∀ n k (p : PrevDirs), PrevDirs.wf p.val →
    ∀ q ∈ prevTrace g n k p, PrevDirs.wf q := by
  intro n
  induction n with
  | zero => intro k p _ q hq; simp [prevTrace] at hq
  | succ m ih =>
    intro k p hp q hq
    simp only [prevTrace] at hq
    rcases List.mem_cons.mp hq with h | h
    · exact h ▸ hp
    · exact ih (k + 2) _ (update_wf p _) q h

/-! Claim theorems. -/

/-- C1 (counterexample): with the all-zero randomness stream the first two
generated moves are `Front` then `Back` — two adjacent moves whose
axis_faces lie in the *same* axis-group (`Front`/`Back`), refuting the claim
that every adjacent pair lies in different axis-groups. -/
theorem scramble_random_adjacent_same_group_cex :
    (Scramble.random (fun _ => 0)).moves.take 2 = [⟨1⟩, ⟨2⟩] ∧
    Move.dir? ⟨1⟩ = some Dir.Front ∧
    Move.dir? ⟨2⟩ = some Dir.Back ∧
    Dir.axisMask Dir.Front = Dir.axisMask Dir.Back := by decide

/-- C1 (amended): every pair of adjacent moves in a generated `Scramble` has
distinct axis_faces — the packed dir codes differ, hence whenever both
decode, the decoded `Dir` values differ.  (The stronger axis-group version
is refuted by the counterexample: `prev_dirs` only carries the whole axis
pair when the two previous moves shared the pair.) -/
theorem scramble_random_adjacent_faces_distinct (g : Nat → Nat) :
    List.Chain'
      (fun a b => Move.dirBits a ≠ Move.dirBits b ∧
        ∀ da db, Move.dir? a = some da → Move.dir? b = some db → da ≠ db)
      (Scramble.random g).moves := by
  have hchain := (genMoves_inv g SCRAMBLE_MOVES 0 ⟨0⟩ (by decide)).2.2
  refine hchain.imp ?_
  intro a b hab
  refine ⟨hab, ?_⟩
  intro da db hda hdb hEq
  have h1 := dir_decode_toBits a da hda
  have h2 := dir_decode_toBits b db hdb
  rw [hEq] at h1
  exact hab (h1.trans h2.symm)

/-- C1 (witness): the adjacent-face-distinctness chain at a concrete
stream. -/
theorem scramble_random_adjacent_faces_distinct_witness :
    List.Chain'
      (fun a b => Move.dirBits a ≠ Move.dirBits b ∧
        ∀ da db, Move.dir? a = some da → Move.dir? b = some db → da ≠ db)
      (Scramble.random (fun _ => 0)).moves :=
  scramble_random_adjacent_faces_distinct (fun _ => 0)

/-- C2 (counterexample): after a first `Front` move the `prev_dirs` bitset
is `1`, and from that state `Move::random` with draw `0` selects `Back`
(packed code `2`) — a face in the *same* axis-group as the preceding
`Front`.  So the candidate set is not the 4 faces outside the preceding
axis-group: it is the 5 faces other than the exact preceding face. -/
theorem move_random_candidates_cex :
    (PrevDirs.update ⟨0⟩ Dir.Front).val = 1 ∧
    Move.random 0 0 ⟨1⟩ = ⟨2⟩ ∧
    Move.dir? ⟨2⟩ = some Dir.Back ∧
    Dir.axisMask Dir.Back = Dir.axisMask Dir.Front := by decide

/-- C2 (amended): for any reachable (well-formed) `prev_dirs` value `p`, the
draw `rng.gen_range(0..num_dirs)` is mapped by the selection loop
*bijectively* onto exactly the axis_faces whose bits are not in `p` —
injectively (first conjunct) and onto every non-`p` dir bit (third
conjunct) — so given a uniform draw the chosen axis_face is uniform over
exactly the candidates excluded by `prev_dirs` (5 faces after a move whose
predecessor was in a different axis-group, 4 only when the two previous
moves shared an axis-group); the produced move stores exactly that
selection in its dir field (last conjunct). -/
theorem move_random_uniform_over_candidates (p : Nat) (hp : PrevDirs.wf p) :
    (∀ d1, d1 < 6 - countOnes p → ∀ d2, d2 < 6 - countOnes p →
      selectDir p 6 0 d1 = selectDir p 6 0 d2 → d1 = d2) ∧
    (∀ d, d < 6 - countOnes p →
      ∃ j, j < 6 ∧ selectDir p 6 0 d = 2 ^ j ∧ p &&& 2 ^ j = 0) ∧
    (∀ j, j < 6 → p &&& 2 ^ j = 0 →
      ∃ d, d < 6 - countOnes p ∧ selectDir p 6 0 d = 2 ^ j) ∧
    (∀ r1 r2, (Move.random r1 r2 ⟨p⟩).dirBits =
      selectDir p 6 0 (r1 % (6 - countOnes p))) := by
  have hlt := wf_lt hp
  exact ⟨selectDir_inj p hlt hp, selectDir_valid p hlt hp, selectDir_surj p hlt hp,
    fun r1 r2 => move_random_dirBits r1 r2 ⟨p⟩⟩

/-- C2 (witness): the uniformity statement instantiated at the reachable
state `prev_dirs = 1` (after a `Front` move), draws `r1 = 0`, `r2 = 0`. -/
theorem move_random_uniform_over_candidates_witness :
    (∀ d1, d1 < 6 - countOnes 1 → ∀ d2, d2 < 6 - countOnes 1 →
      selectDir 1 6 0 d1 = selectDir 1 6 0 d2 → d1 = d2) ∧
    (∀ d, d < 6 - countOnes 1 →
      ∃ j, j < 6 ∧ selectDir 1 6 0 d = 2 ^ j ∧ 1 &&& 2 ^ j = 0) ∧
    (∀ j, j < 6 → 1 &&& 2 ^ j = 0 →
      ∃ d, d < 6 - countOnes 1 ∧ selectDir 1 6 0 d = 2 ^ j) ∧
    (∀ r1 r2, (Move.random r1 r2 ⟨1⟩).dirBits =
      selectDir 1 6 0 (r1 % (6 - countOnes 1))) :=
  move_random_uniform_over_candidates 1 (by decide)

/-- C3 (counterexample): checked at *exactly* 15.000s elapsed (start 0,
now 15000000000 ns) the `Inspecting` state does **not** transition — the
source compares with strict `>` — refuting "transitions when checked
at/after 15.000s elapsed". -/
theorem update_at_exact_deadline_cex :
    update 15000000000 ⟨false, .Inspecting 0⟩ = ⟨false, .Inspecting 0⟩ := by
  decide

/-- C3 (amended): while `Inspecting`, the periodic check transitions to
`Solving` exactly when the elapsed time *strictly exceeds* the 15-second
ceiling: it stays `Inspecting` whenever elapsed ≤ 15.000s (including at
exactly 15.000s and at 14.999s), and moves to `Solving now` whenever
elapsed > 15.000s. -/
theorem update_inspect_timeout_strict (cb : Bool) (start now : Nat) :
    (now - start ≤ INSPECT_DURATION →
      update now ⟨cb, .Inspecting start⟩ = ⟨cb, .Inspecting start⟩) ∧
    (INSPECT_DURATION < now - start →
      update now ⟨cb, .Inspecting start⟩ = ⟨cb, .Solving now⟩) := by
  constructor
  · intro h
    simp only [update]
    rw [if_neg (by omega)]
  · intro h
    simp only [update]
    rw [if_pos (by omega)]

/-- C3 (witness): no transition at 14.999s elapsed; transition at
15.000000001s elapsed. -/
theorem update_inspect_timeout_strict_witness :
    update 14999000000 ⟨false, .Inspecting 0⟩ = ⟨false, .Inspecting 0⟩ ∧
    update 15000000001 ⟨false, .Inspecting 0⟩ = ⟨false, .Solving 15000000001⟩ :=
  ⟨(update_inspect_timeout_strict false 0 14999000000).1 (by decide),
   (update_inspect_timeout_strict false 0 15000000001).2 (by decide)⟩

/-- C4: `State::next` is total over the four states and follows the fixed
cycle: `Idle → Inspecting now`, `Inspecting → Solving now`,
`Solving start → Done (now - start)` (elapsed from the *solve* start, not
the inspection start), `Done → Idle` with a freshly generated scramble. -/
theorem state_next_cycle (now : Nat) (g : Nat → Nat) (sc : Scramble)
    (t1 t2 el : Nat) :
    (State.Idle sc).next now g = .Inspecting now ∧
    (State.Inspecting t1).next now g = .Solving now ∧
    (State.Solving t2).next now g = .Done (now - t2) ∧
    (State.Done el).next now g = .Idle (Scramble.random g) :=
  ⟨rfl, rfl, rfl, rfl⟩

/-- C5: every move of a generated scramble carries exactly one set bit in
its packed dir field (a power of two among the six low bits), so the
unchecked decode `Move::dir` succeeds (is `some`) on every generated move:
the transmute never sees an out-of-range code. -/
theorem scramble_random_decode_total (g : Nat → Nat) (m : Move)
    (hm : m ∈ (Scramble.random g).moves) :
    (∃ j, j < 6 ∧ m.dirBits = 2 ^ j) ∧ ∃ d, m.dir? = some d := by
  obtain ⟨j, hj, hbits⟩ :=
    (genMoves_inv g SCRAMBLE_MOVES 0 ⟨0⟩ (by decide)).1 m hm
  obtain ⟨d, hd, _⟩ := dir_decode m j hj hbits
  exact ⟨⟨j, hj, hbits⟩, d, hd⟩

/-- C5 (witness): the first move of the all-zero-stream scramble decodes. -/
theorem scramble_random_decode_total_witness :
    (∃ j, j < 6 ∧ Move.dirBits ⟨1⟩ = 2 ^ j) ∧ ∃ d, Move.dir? ⟨1⟩ = some d :=
  scramble_random_decode_total (fun _ => 0) ⟨1⟩ (by decide)

/-- C6: pressing `r` outside `Idle` leaves the whole `App` unchanged (and
does not quit); pressing `r` while `Idle` replaces the scramble with a
freshly generated one and the state remains `Idle`. -/
theorem input_reshuffle_frame (app : App) (now : Nat) (g : Nat → Nat) :
    (app.state.is_idle = false → input app .r now g = (app, true)) ∧
    (app.state.is_idle = true →
      input app .r now g = ({ app with state := .Idle (Scramble.random g) }, true) ∧
      (State.Idle (Scramble.random g)).is_idle = true) := by
  constructor
  · intro h
    simp [input, h]
  · intro h
    exact ⟨by simp [input, h], rfl⟩

/-- C6 (witness): concrete no-op outside `Idle` (state `Done`) and concrete
replacement in `Idle`. -/
theorem input_reshuffle_frame_witness :
    input ⟨false, .Done 5⟩ .r 0 (fun _ => 0) = (⟨false, .Done 5⟩, true) ∧
    input ⟨true, .Idle ⟨[]⟩⟩ .r 0 (fun _ => 0) =
      (⟨true, .Idle (Scramble.random (fun _ => 0))⟩, true) :=
  ⟨(input_reshuffle_frame ⟨false, .Done 5⟩ 0 (fun _ => 0)).1 rfl,
   ((input_reshuffle_frame ⟨true, .Idle ⟨[]⟩⟩ 0 (fun _ => 0)).2 rfl).1⟩

/-- C7: every generated scramble contains exactly `SCRAMBLE_MOVES = 30`
moves. -/
theorem scramble_random_length (g : Nat → Nat) :
    (Scramble.random g).moves.length = 30 :=
  genMoves_length g SCRAMBLE_MOVES 0 ⟨0⟩

/-- C8: formatting a move writes the dir letter followed by the modifier
suffix (space for `Forward`, apostrophe for `Reverse`, `2` for `Double`);
concretely, `Up`+`Reverse` (byte 80) renders as `U` then apostrophe,
`Front`+`Double` (byte 129) as `F2`, and `Left`+`Forward` (byte 4) as `L`
followed by the space of the fixed trailing-space convention. -/
theorem move_fmt_spec :
    (∀ (m : Move) (d : Dir), m.dir? = some d →
      m.fmt = some (String.mk [d.char, m.modifier.char])) ∧
    (Move.dir? ⟨80⟩ = some Dir.Up ∧ Move.modifier ⟨80⟩ = Mod.Reverse ∧
      Move.fmt ⟨80⟩ = some (String.mk ['U', Char.ofNat 39])) ∧
    (Move.dir? ⟨129⟩ = some Dir.Front ∧ Move.modifier ⟨129⟩ = Mod.Double ∧
      Move.fmt ⟨129⟩ = some (String.mk ['F', '2'])) ∧
    (Move.dir? ⟨4⟩ = some Dir.Left ∧ Move.modifier ⟨4⟩ = Mod.Forward ∧
      Move.fmt ⟨4⟩ = some (String.mk ['L', Char.ofNat 32])) := by
  refine ⟨?_, by decide, by decide, by decide⟩
  intro m d h
  simp [Move.fmt, h]

/-- C8 (witness): the general rendering equation applied to byte 80. -/
theorem move_fmt_spec_witness :
    Move.fmt ⟨80⟩ =
      some (String.mk [Dir.char Dir.Up, Mod.char (Move.modifier ⟨80⟩)]) :=
  move_fmt_spec.1 ⟨80⟩ Dir.Up (by decide)

/-- C9: the stored modifier of any `Move::random` result is determined by
the second draw alone — `modOf (r2 % 3)`, independent of the dir draw `r1`
and of `prev_dirs` — and `modOf` maps `{0,1,2}` bijectively onto
`{Forward, Reverse, Double}`, so a uniform draw gives each modifier
probability 1/3. -/
theorem move_random_modifier_uniform (r1 r2 : Nat) (p : PrevDirs) :
    (Move.random r1 r2 p).modifier = modOf (r2 % 3) ∧
    (∀ a, a < 3 → ∀ b, b < 3 → modOf a = modOf b → a = b) ∧
    (∀ mo : Mod, ∃ v, v < 3 ∧ modOf v = mo) := by
  refine ⟨?_, by decide, ?_⟩
  · have hs := selectDir_lt p.val (r1 % (6 - countOnes p.val))
    have hb := modifier_bits _ hs
    have h3 : r2 % 3 = 0 ∨ r2 % 3 = 1 ∨ r2 % 3 = 2 := by omega
    unfold Move.modifier
    rw [move_random_val]
    rcases h3 with h | h | h <;> rw [h] <;> simp only [modOf] <;>
      simp [hb.1, hb.2.1, hb.2.2.1, hb.2.2.2.1, hb.2.2.2.2]
  · intro mo
    cases mo
    · exact ⟨0, by omega, rfl⟩
    · exact ⟨1, by omega, rfl⟩
    · exact ⟨2, by omega, rfl⟩

/-- C9 (witness): the modifier equation at concrete draws. -/
theorem move_random_modifier_uniform_witness :
    (Move.random 3 4 ⟨0⟩).modifier = modOf (4 % 3) :=
  (move_random_modifier_uniform 3 4 ⟨0⟩).1

/-- C10: every `prev_dirs` value reaching a `Move::random` call inside
`Scramble::random` is well formed — all its set bits lie inside a single
axis-pair mask and there are at most two of them — hence the candidate
count `num_dirs = 6 - count_ones` is 4, 5 or 6 (in particular nonzero, so
`gen_range(0..num_dirs)` is over a nonempty range), and the selection loop
returns exactly one dir bit not in `prev_dirs`. -/
theorem prev_dirs_invariant (g : Nat → Nat) (p r1 r2 : Nat)
    (hp : p ∈ prevTrace g SCRAMBLE_MOVES 0 ⟨0⟩) :
    PrevDirs.wf p ∧ countOnes p ≤ 2 ∧
    (6 - countOnes p = 4 ∨ 6 - countOnes p = 5 ∨ 6 - countOnes p = 6) ∧
    0 < 6 - countOnes p ∧
    (∃ j, j < 6 ∧ (Move.random r1 r2 ⟨p⟩).dirBits = 2 ^ j ∧ p &&& 2 ^ j = 0) := by
  have hwf := prevTrace_wf g SCRAMBLE_MOVES 0 ⟨0⟩ (by decide) p hp
  have hlt := wf_lt hwf
  have hc := countOnes_wf p hlt hwf
  exact ⟨hwf, hc.1, hc.2.2, by omega,
    move_random_dir_valid r1 r2 ⟨p⟩ hwf⟩

/-- C10 (witness): the invariant at the first trace entry `prev_dirs = 0`
of the all-zero stream with draws `r1 = r2 = 0`. -/
theorem prev_dirs_invariant_witness :
    PrevDirs.wf 0 ∧ countOnes 0 ≤ 2 ∧
    (6 - countOnes 0 = 4 ∨ 6 - countOnes 0 = 5 ∨ 6 - countOnes 0 = 6) ∧
    0 < 6 - countOnes 0 ∧
    (∃ j, j < 6 ∧ (Move.random 0 0 ⟨0⟩).dirBits = 2 ^ j ∧ 0 &&& 2 ^ j = 0) :=
  prev_dirs_invariant (fun _ => 0) 0 0 0 (by decide)

end CubeTuimer
